import Mathlib

/-!
Verification of the normalization and validation engine of the job-scraper
repository (`core/models.py`).  The Python/pydantic models are embedded
shallowly: each pydantic field/model validator becomes an executable Lean
function, construction of an entity becomes `JobListing.build`, and the
claims of the specification are settled as theorems about these definitions.

Modelling conventions:
* Python strings are Lean `String`s; character classification functions
  (`str.isspace` constituents, `str.isupper`, `str.lower`) are modelled on
  the ASCII range, which covers all data this repository handles.
* Python `float` salary amounts are modelled as `ℚ`: the code only ever
  compares amounts (`ge=0`, `min > max`), and on non-NaN numeric inputs
  rational comparison agrees with IEEE comparison.
* `datetime` values are opaque timestamps (`Int`) that the engine passes
  through untouched.
* pydantic collects an error per offending field; `JobListing.build`
  returns `Except (List FieldError) JobListing` accordingly.
-/

deriving instance DecidableEq for Except

namespace JobScraper

/-! ## FieldSanitizer primitives

`str_strip_whitespace=True` in `model_config`, `' '.join(v.split())` in
`clean_whitespace`, and `item.strip()` in `clean_list_items` all reduce to
the following character-list operations. -/

/-- Python whitespace test for a single character (`str.isspace`),
restricted to the ASCII range: space, tab, newline, carriage return,
vertical tab, form feed. -/
def pyIsSpace (c : Char) : Bool :=
  c = ' ' || c = '\t' || c = '\n' || c = '\r' || c = '\x0b' || c = '\x0c'

/-- Python `str.strip()` on the underlying character list: drop leading and
trailing whitespace. -/
def stripC (l : List Char) : List Char :=
  ((l.dropWhile pyIsSpace).reverse.dropWhile pyIsSpace).reverse

/-- Python `str.strip()`. -/
def pyStrip (s : String) : String := ⟨stripC s.data⟩

/-- Python `str.split()` with no separator: split on runs of whitespace, never
producing empty words.  `acc` is the reversed current word. -/
def splitC : List Char → List Char → List (List Char)
  | [], acc => if acc = [] then [] else [acc.reverse]
  | c :: rest, acc =>
    if pyIsSpace c then
      if acc = [] then splitC rest [] else acc.reverse :: splitC rest []
    else
      splitC rest (c :: acc)

/-- Python `' '.join(words)` on character lists. -/
def joinC : List (List Char) → List Char
  | [] => []
  | [w] => w
  | w :: ws => w ++ ' ' :: joinC ws

/-- Python `' '.join(s.split())`: collapse internal whitespace runs to single
spaces and trim the ends (the `clean_whitespace` validator). -/
def collapseC (l : List Char) : List Char := joinC (splitC l [])

/-- String-level `' '.join(s.split())`. -/
def collapseWs (s : String) : String := ⟨collapseC s.data⟩

/-- Python `str.lower()`, modelled on the ASCII range (`Char.toLower` lowers
exactly the letters A-Z). -/
def pyLower (s : String) : String := ⟨s.data.map Char.toLower⟩

/-- Python `str.isupper()` for a single character, modelled on the ASCII range:
true exactly for the uppercase letters A-Z. -/
def pyIsUpper (c : Char) : Bool := 'A' ≤ c && c ≤ 'Z'

/-! ### Lemmas about stripping -/

theorem dropWhile_head_false {p : Char → Bool} :
    ∀ (l : List Char) (c : Char), (l.dropWhile p).head? = some c → p c = false := by
  intro l
  induction l with
  | nil => intro c h; simp [List.dropWhile] at h
  | cons a t ih =>
    intro c h
    by_cases hp : p a
    · rw [List.dropWhile_cons_of_pos hp] at h
      exact ih c h
    · rw [List.dropWhile_cons_of_neg hp] at h
      have : a = c := by simpa using h
      subst this
      simpa using hp

theorem dropWhile_cons_false {p : Char → Bool} {a : Char} {t : List Char}
    (h : p a = false) : (a :: t).dropWhile p = a :: t := by
  simp [List.dropWhile_cons, h]

theorem dropWhile_idem {p : Char → Bool} (l : List Char) :
    (l.dropWhile p).dropWhile p = l.dropWhile p := by
  cases hd : l.dropWhile p with
  | nil => rfl
  | cons a t =>
    have ha : p a = false := dropWhile_head_false l a (by rw [hd]; rfl)
    exact dropWhile_cons_false ha

theorem dropWhile_isSuffix {p : Char → Bool} (l : List Char) :
    ∃ t, t ++ l.dropWhile p = l := by
  obtain ⟨t, ht⟩ := List.dropWhile_suffix (l := l) p
  exact ⟨t, ht⟩

/-- The leading whitespace dropped on the left: `l.dropWhile` splits `l`
as whitespace prefix plus remainder; applied on the reverse it exhibits
`stripC l` as a prefix of `l.dropWhile pyIsSpace`. -/
theorem dropWhile_eq_stripC_append (l : List Char) :
    ∃ w, (∀ c ∈ w, pyIsSpace c = true) ∧ l.dropWhile pyIsSpace = stripC l ++ w := by
  have h := List.takeWhile_append_dropWhile pyIsSpace (l.dropWhile pyIsSpace).reverse
  refine ⟨((l.dropWhile pyIsSpace).reverse.takeWhile pyIsSpace).reverse, ?_, ?_⟩
  · intro c hc
    rw [List.mem_reverse] at hc
    exact List.mem_takeWhile_imp hc
  · have h2 := congrArg List.reverse h
    rw [List.reverse_append, List.reverse_reverse] at h2
    exact h2.symm

theorem stripC_head_false (l : List Char) (c : Char)
    (h : (stripC l).head? = some c) : pyIsSpace c = false := by
  obtain ⟨w, _, hw⟩ := dropWhile_eq_stripC_append l
  apply dropWhile_head_false l c
  rw [hw]
  cases hs : stripC l with
  | nil => rw [hs] at h; simp at h
  | cons d ds =>
    rw [hs] at h
    simp only [List.head?_cons, Option.some.injEq] at h
    subst h
    rfl

theorem stripC_idem (l : List Char) : stripC (stripC l) = stripC l := by
  have h1 : (stripC l).dropWhile pyIsSpace = stripC l := by
    cases hs : stripC l with
    | nil => rfl
    | cons a t => exact dropWhile_cons_false (stripC_head_false l a (by rw [hs]; rfl))
  show (((stripC l).dropWhile pyIsSpace).reverse.dropWhile pyIsSpace).reverse = stripC l
  rw [h1]
  show ((((l.dropWhile pyIsSpace).reverse.dropWhile pyIsSpace).reverse).reverse.dropWhile
    pyIsSpace).reverse = stripC l
  rw [List.reverse_reverse, dropWhile_idem]
  rfl

theorem pyStrip_idem (s : String) : pyStrip (pyStrip s) = pyStrip s :=
  congrArg String.mk (stripC_idem s.data)

theorem pyStrip_eq_empty_iff (s : String) : pyStrip s = "" ↔ stripC s.data = [] := by
  constructor
  · intro h
    have := congrArg String.data h
    simpa [pyStrip] using this
  · intro h
    show (⟨stripC s.data⟩ : String) = ""
    rw [h]

/-! ### Lemmas about splitting and joining -/

theorem splitC_nil (acc : List Char) :
    splitC [] acc = if acc = [] then [] else [acc.reverse] := rfl

theorem splitC_cons_ws {c : Char} (h : pyIsSpace c = true) (rest acc : List Char) :
    splitC (c :: rest) acc =
      if acc = [] then splitC rest [] else acc.reverse :: splitC rest [] := by
  simp [splitC, h]

theorem splitC_cons_nws {c : Char} (h : pyIsSpace c = false) (rest acc : List Char) :
    splitC (c :: rest) acc = splitC rest (c :: acc) := by
  simp [splitC, h]

/-- Every word produced by `splitC` is nonempty and contains no
whitespace character. -/
theorem splitC_good :
    ∀ (l acc : List Char), (∀ c ∈ acc, pyIsSpace c = false) →
      ∀ w ∈ splitC l acc, w ≠ [] ∧ ∀ c ∈ w, pyIsSpace c = false := by
  intro l
  induction l with
  | nil =>
    intro acc hacc w hw
    by_cases ha : acc = []
    · rw [splitC_nil, if_pos ha] at hw
      simp at hw
    · rw [splitC_nil, if_neg ha] at hw
      simp only [List.mem_singleton] at hw
      subst hw
      refine ⟨by simpa using ha, ?_⟩
      intro c hc
      exact hacc c (List.mem_reverse.mp hc)
  | cons a t ih =>
    intro acc hacc w hw
    by_cases hp : pyIsSpace a = true
    · rw [splitC_cons_ws hp] at hw
      by_cases ha : acc = []
      · rw [if_pos ha] at hw
        exact ih [] (by simp) w hw
      · rw [if_neg ha] at hw
        rcases List.mem_cons.mp hw with h1 | h2
        · subst h1
          refine ⟨by simpa using ha, ?_⟩
          intro c hc
          exact hacc c (List.mem_reverse.mp hc)
        · exact ih [] (by simp) w h2
    · rw [splitC_cons_nws (by simpa using hp)] at hw
      refine ih (a :: acc) ?_ w hw
      intro c hc
      rcases List.mem_cons.mp hc with h1 | h2
      · subst h1; simpa using hp
      · exact hacc c h2

/-- Scanning a whitespace-free word accumulates it. -/
theorem splitC_word :
    ∀ (w : List Char), (∀ c ∈ w, pyIsSpace c = false) →
      ∀ (l acc : List Char), splitC (w ++ l) acc = splitC l (w.reverse ++ acc) := by
  intro w
  induction w with
  | nil => intro _ l acc; simp
  | cons c w2 ih =>
    intro hw l acc
    have hc : pyIsSpace c = false := hw c (by simp)
    rw [List.cons_append, splitC_cons_nws hc,
      ih (fun d hd => hw d (List.mem_cons_of_mem _ hd)) l (c :: acc)]
    simp

/-- Splitting an all-whitespace list yields no words. -/
theorem splitC_ws_nil :
    ∀ (w : List Char), (∀ c ∈ w, pyIsSpace c = true) → splitC w [] = [] := by
  intro w
  induction w with
  | nil => intro _; rfl
  | cons c t ih =>
    intro h
    rw [splitC_cons_ws (h c (by simp)), if_pos rfl]
    exact ih (fun d hd => h d (List.mem_cons_of_mem _ hd))

/-- Trailing whitespace does not change the split. -/
theorem splitC_append_ws :
    ∀ (m acc w : List Char), (∀ c ∈ w, pyIsSpace c = true) →
      splitC (m ++ w) acc = splitC m acc := by
  intro m
  induction m with
  | nil =>
    intro acc w hw
    cases w with
    | nil => simp
    | cons c t =>
      rw [List.nil_append, splitC_cons_ws (hw c (by simp)), splitC_nil]
      have ht : splitC t [] = [] := splitC_ws_nil t (fun d hd => hw d (List.mem_cons_of_mem _ hd))
      by_cases ha : acc = [] <;> simp [ha, ht]
  | cons a m2 ih =>
    intro acc w hw
    by_cases hp : pyIsSpace a = true
    · rw [List.cons_append, splitC_cons_ws hp, splitC_cons_ws hp, ih [] w hw]
    · rw [List.cons_append, splitC_cons_nws (by simpa using hp),
        splitC_cons_nws (by simpa using hp), ih _ w hw]

/-- Leading whitespace does not change the split. -/
theorem splitC_dropWhile (l : List Char) :
    splitC (l.dropWhile pyIsSpace) [] = splitC l [] := by
  induction l with
  | nil => rfl
  | cons a t ih =>
    by_cases hp : pyIsSpace a = true
    · rw [List.dropWhile_cons_of_pos hp, ih, splitC_cons_ws hp, if_pos rfl]
    · rw [List.dropWhile_cons_of_neg (by simpa using hp)]

/-- Stripping does not change the split. -/
theorem splitC_stripC (l : List Char) : splitC (stripC l) [] = splitC l [] := by
  obtain ⟨w, hw, hd⟩ := dropWhile_eq_stripC_append l
  rw [← splitC_dropWhile l, hd, splitC_append_ws (stripC l) [] w hw]

/-- Splitting a space-joined list of good words recovers the words. -/
theorem splitC_joinC :
    ∀ (ws : List (List Char)),
      (∀ w ∈ ws, w ≠ [] ∧ ∀ c ∈ w, pyIsSpace c = false) →
      splitC (joinC ws) [] = ws := by
  intro ws
  induction ws with
  | nil => intro _; rfl
  | cons w ws2 ih =>
    intro h
    obtain ⟨hne, hchars⟩ := h w (by simp)
    cases ws2 with
    | nil =>
      show splitC w [] = [w]
      have hword := splitC_word w hchars [] []
      rw [List.append_nil] at hword
      rw [hword, splitC_nil, if_neg (by simpa using hne), List.append_nil,
        List.reverse_reverse]
    | cons w2 ws3 =>
      show splitC (w ++ ' ' :: joinC (w2 :: ws3)) [] = w :: w2 :: ws3
      rw [splitC_word w hchars _ [], List.append_nil,
        splitC_cons_ws (by rfl), if_neg (by simpa using hne), List.reverse_reverse,
        ih (fun x hx => h x (List.mem_cons_of_mem _ hx))]

theorem splitC_ne_nil_acc :
    ∀ (l acc : List Char), acc ≠ [] → splitC l acc ≠ [] := by
  intro l
  induction l with
  | nil => intro acc ha; rw [splitC_nil, if_neg ha]; simp
  | cons a t ih =>
    intro acc ha
    by_cases hp : pyIsSpace a = true
    · rw [splitC_cons_ws hp, if_neg ha]; simp
    · rw [splitC_cons_nws (by simpa using hp)]
      exact ih (a :: acc) (by simp)

theorem splitC_ne_nil_of_head (l : List Char) (c : Char)
    (hc : l.head? = some c) (hp : pyIsSpace c = false) : splitC l [] ≠ [] := by
  cases l with
  | nil => simp at hc
  | cons a t =>
    have ha : a = c := by simpa using hc
    subst ha
    rw [splitC_cons_nws hp]
    exact splitC_ne_nil_acc t [a] (by simp)

/-- Core fixed-point fact: on a nonempty stripped input, collapsing
whitespace produces a string that survives a strip-then-collapse round
trip unchanged and splits back into the original words. -/
theorem collapse_fixed (t : List Char) (hfix : stripC t = t) (hne : t ≠ []) :
    stripC (collapseC t) ≠ [] ∧
      collapseC (stripC (collapseC t)) = collapseC t := by
  have hgood : ∀ w ∈ splitC t [], w ≠ [] ∧ ∀ c ∈ w, pyIsSpace c = false :=
    splitC_good t [] (by simp)
  have hhead : ∃ c, t.head? = some c := by
    cases t with
    | nil => exact absurd rfl hne
    | cons a u => exact ⟨a, rfl⟩
  obtain ⟨c, hc⟩ := hhead
  have hcns : pyIsSpace c = false := stripC_head_false t c (by rw [hfix]; exact hc)
  have hwne : splitC t [] ≠ [] := splitC_ne_nil_of_head t c hc hcns
  have hsplitd : splitC (collapseC t) [] = splitC t [] := splitC_joinC _ hgood
  have hstrip_split : splitC (stripC (collapseC t)) [] = splitC t [] := by
    rw [splitC_stripC, hsplitd]
  constructor
  · intro hnil
    rw [hnil] at hstrip_split
    exact hwne (by simpa using hstrip_split.symm)
  · show joinC (splitC (stripC (collapseC t)) []) = collapseC t
    rw [hstrip_split]
    rfl

/-! ## List deduplication (`list(dict.fromkeys(cleaned))`)

`dict.fromkeys` keeps the first occurrence of each key and the original
relative order; the equivalent recursive formulation drops every later
duplicate. -/

/-- Worker for first-occurrence deduplication: `seen` holds the keys
already inserted (insertion into the `dict` is a no-op for a seen key). -/
def dedupeAux (seen : List String) : List String → List String
  | [] => []
  | x :: xs => if x ∈ seen then dedupeAux seen xs else x :: dedupeAux (x :: seen) xs

/-- First-occurrence-preserving deduplication (`list(dict.fromkeys(l))`). -/
def dedupeFirst (l : List String) : List String := dedupeAux [] l

theorem mem_dedupeAux :
    ∀ (l seen : List String) (x : String), x ∈ dedupeAux seen l ↔ x ∈ l ∧ x ∉ seen := by
  intro l
  induction l with
  | nil => intro seen x; simp [dedupeAux]
  | cons y ys ih =>
    intro seen x
    by_cases hy : y ∈ seen
    · rw [dedupeAux, if_pos hy, ih]
      constructor
      · rintro ⟨h1, h2⟩
        exact ⟨List.mem_cons_of_mem _ h1, h2⟩
      · rintro ⟨h1, h2⟩
        rcases List.mem_cons.mp h1 with h3 | h3
        · exact absurd (h3 ▸ hy) h2
        · exact ⟨h3, h2⟩
    · rw [dedupeAux, if_neg hy]
      constructor
      · intro h
        rcases List.mem_cons.mp h with h1 | h1
        · exact ⟨h1 ▸ List.mem_cons_self _ _, h1 ▸ hy⟩
        · obtain ⟨h2, h3⟩ := (ih (y :: seen) x).mp h1
          exact ⟨List.mem_cons_of_mem _ h2, fun hc => h3 (List.mem_cons_of_mem _ hc)⟩
      · rintro ⟨h1, h2⟩
        rcases List.mem_cons.mp h1 with h3 | h3
        · exact h3 ▸ List.mem_cons_self _ _
        · by_cases hxy : x = y
          · exact hxy ▸ List.mem_cons_self _ _
          · refine List.mem_cons_of_mem _ ((ih (y :: seen) x).mpr ⟨h3, ?_⟩)
            intro hc
            rcases List.mem_cons.mp hc with h4 | h4
            · exact hxy h4
            · exact h2 h4

theorem mem_dedupeFirst (l : List String) (x : String) : x ∈ dedupeFirst l ↔ x ∈ l := by
  rw [dedupeFirst, mem_dedupeAux]
  simp

theorem nodup_dedupeAux : ∀ (l seen : List String), (dedupeAux seen l).Nodup := by
  intro l
  induction l with
  | nil => intro seen; exact List.nodup_nil
  | cons y ys ih =>
    intro seen
    by_cases hy : y ∈ seen
    · rw [dedupeAux, if_pos hy]; exact ih seen
    · rw [dedupeAux, if_neg hy]
      refine List.nodup_cons.mpr ⟨?_, ih (y :: seen)⟩
      intro hmem
      exact ((mem_dedupeAux ys (y :: seen) y).mp hmem).2 (List.mem_cons_self _ _)

theorem nodup_dedupeFirst (l : List String) : (dedupeFirst l).Nodup :=
  nodup_dedupeAux l []

theorem sublist_dedupeAux : ∀ (l seen : List String), (dedupeAux seen l).Sublist l := by
  intro l
  induction l with
  | nil => intro seen; exact List.Sublist.refl _
  | cons y ys ih =>
    intro seen
    by_cases hy : y ∈ seen
    · rw [dedupeAux, if_pos hy]
      exact (ih seen).cons y
    · rw [dedupeAux, if_neg hy]
      exact (ih (y :: seen)).cons₂ y

theorem sublist_dedupeFirst (l : List String) : (dedupeFirst l).Sublist l :=
  sublist_dedupeAux l []

theorem dedupeAux_of_nodup :
    ∀ (l seen : List String), l.Nodup → (∀ x ∈ l, x ∉ seen) → dedupeAux seen l = l := by
  intro l
  induction l with
  | nil => intro seen _ _; rfl
  | cons y ys ih =>
    intro seen h hdisj
    obtain ⟨hy, hys⟩ := List.nodup_cons.mp h
    rw [dedupeAux, if_neg (hdisj y (List.mem_cons_self _ _))]
    rw [ih (y :: seen) hys]
    intro x hx
    intro hc
    rcases List.mem_cons.mp hc with h1 | h1
    · exact hy (h1 ▸ hx)
    · exact hdisj x (List.mem_cons_of_mem _ hx) h1

theorem dedupeFirst_of_nodup (l : List String) (h : l.Nodup) : dedupeFirst l = l :=
  dedupeAux_of_nodup l [] h (by simp)

/-! ## `clean_list_items` (validator on `skills` and `languages`)

`cleaned = [item.strip() for item in v if item and item.strip()]` followed
by `list(dict.fromkeys(cleaned))`. -/

/-- The comprehension `[item.strip() for item in v if item and item.strip()]`. -/
def cleanedOf (v : List String) : List String :=
  (v.filter (fun item => !(item = "") && !(pyStrip item = ""))).map pyStrip

/-- The `clean_list_items` field validator for `skills`/`languages`. -/
def cleanListItems (v : List String) : List String := dedupeFirst (cleanedOf v)

theorem mem_cleanedOf (v : List String) (s : String) (h : s ∈ cleanedOf v) :
    s ≠ "" ∧ pyStrip s = s := by
  obtain ⟨item, hitem, hstrip⟩ := List.mem_map.mp h
  obtain ⟨_, hcond⟩ := List.mem_filter.mp hitem
  simp only [Bool.and_eq_true, Bool.not_eq_true', decide_eq_false_iff_not] at hcond
  subst hstrip
  exact ⟨hcond.2, pyStrip_idem item⟩

theorem mem_cleanListItems (v : List String) (s : String) (h : s ∈ cleanListItems v) :
    s ≠ "" ∧ pyStrip s = s :=
  mem_cleanedOf v s ((mem_dedupeFirst _ s).mp h)

theorem cleanListItems_nodup (v : List String) : (cleanListItems v).Nodup :=
  nodup_dedupeFirst _

theorem cleanListItems_sublist (v : List String) :
    (cleanListItems v).Sublist (cleanedOf v) :=
  sublist_dedupeFirst _

/-- Every element of a list whose members are all nonempty and
strip-fixed survives `cleanedOf` unchanged. -/
theorem cleanedOf_fixed (l : List String)
    (h : ∀ s ∈ l, s ≠ "" ∧ pyStrip s = s) : cleanedOf l = l := by
  unfold cleanedOf
  have hfilter : l.filter (fun item => !(item = "") && !(pyStrip item = "")) = l := by
    rw [List.filter_eq_self]
    intro a ha
    obtain ⟨h1, h2⟩ := h a ha
    simp [h1, h2]
  rw [hfilter]
  have : ∀ a ∈ l, pyStrip a = id a := fun a ha => (h a ha).2
  rw [List.map_congr_left this, List.map_id]

/-- The validator `clean_list_items` is idempotent. -/
theorem cleanListItems_idem (v : List String) :
    cleanListItems (cleanListItems v) = cleanListItems v := by
  unfold cleanListItems
  rw [cleanedOf_fixed (dedupeFirst (cleanedOf v)) (mem_cleanListItems v),
    dedupeFirst_of_nodup _ (nodup_dedupeFirst _)]

/-- Elementwise stripping does not change an already-clean list. -/
theorem cleanListItems_map_strip (v : List String) :
    (cleanListItems v).map pyStrip = cleanListItems v := by
  have : ∀ a ∈ cleanListItems v, pyStrip a = id a :=
    fun a ha => (mem_cleanListItems v a ha).2
  rw [List.map_congr_left this, List.map_id]

/-- Stripping the items before cleaning changes nothing (the
`str_strip_whitespace` pre-pass composed with `clean_list_items`). -/
theorem cleanListItems_map_strip_pre (v : List String) :
    cleanListItems (v.map pyStrip) = cleanListItems v := by
  unfold cleanListItems
  congr 1
  unfold cleanedOf
  rw [List.filter_map, List.map_map]
  have h1 : v.filter ((fun item => !(item = "") && !(pyStrip item = "")) ∘ pyStrip) =
      v.filter (fun item => !(item = "") && !(pyStrip item = "")) := by
    apply List.filter_congr
    intro a _
    simp only [Function.comp_apply]
    rw [pyStrip_idem a]
    by_cases h : pyStrip a = ""
    · simp [h]
    · have ha : a ≠ "" := by
        intro he
        subst he
        exact h rfl
      simp [h, ha]
  rw [h1]
  apply List.map_congr_left
  intro a _
  simp only [Function.comp_apply]
  exact pyStrip_idem a

/-! ## Enumerations (`JobType`, `SeniorityLevel`, `Currency`)

The Python enums are `str`-valued; with `use_enum_values=True` the entity
stores the string value.  We store the canonical member and record the
value map, which is injective, so the two representations are isomorphic. -/

inductive JobType where
  | full_time
  | part_time
  | contract
  | internship
  | freelance
  | temporary
deriving DecidableEq

/-- The value string of each `JobType` member (note the source spells
the temporary value with a capital T). -/
def JobType.value : JobType → String
  | .full_time => "full_time"
  | .part_time => "part_time"
  | .contract => "contract"
  | .internship => "internship"
  | .freelance => "freelance"
  | .temporary => "Temporary"

/-- pydantic validation of a raw string against the `JobType` enum:
exact match on a member value. -/
def JobType.ofValue? (s : String) : Option JobType :=
  if s = "full_time" then some .full_time
  else if s = "part_time" then some .part_time
  else if s = "contract" then some .contract
  else if s = "internship" then some .internship
  else if s = "freelance" then some .freelance
  else if s = "Temporary" then some .temporary
  else none

theorem jobType_ofValue_roundtrip (t : JobType) : JobType.ofValue? t.value = some t := by
  cases t <;> rfl

inductive SeniorityLevel where
  | entry
  | junior
  | mid
  | senior
  | lead
  | manager
  | director
  | executive
deriving DecidableEq

def SeniorityLevel.value : SeniorityLevel → String
  | .entry => "entry"
  | .junior => "junior"
  | .mid => "mid"
  | .senior => "senior"
  | .lead => "lead"
  | .manager => "manager"
  | .director => "director"
  | .executive => "executive"

def SeniorityLevel.ofValue? (s : String) : Option SeniorityLevel :=
  if s = "entry" then some .entry
  else if s = "junior" then some .junior
  else if s = "mid" then some .mid
  else if s = "senior" then some .senior
  else if s = "lead" then some .lead
  else if s = "manager" then some .manager
  else if s = "director" then some .director
  else if s = "executive" then some .executive
  else none

theorem seniority_ofValue_roundtrip (t : SeniorityLevel) :
    SeniorityLevel.ofValue? t.value = some t := by
  cases t <;> rfl

inductive Currency where
  | EGP
  | AED
  | SAR
  | KWD
  | USD
  | EUR
deriving DecidableEq

def Currency.value : Currency → String
  | .EGP => "EGP"
  | .AED => "AED"
  | .SAR => "SAR"
  | .KWD => "KWD"
  | .USD => "USD"
  | .EUR => "EUR"

def Currency.ofValue? (s : String) : Option Currency :=
  if s = "EGP" then some .EGP
  else if s = "AED" then some .AED
  else if s = "SAR" then some .SAR
  else if s = "KWD" then some .KWD
  else if s = "USD" then some .USD
  else if s = "EUR" then some .EUR
  else none

theorem currency_ofValue_roundtrip (c : Currency) : Currency.ofValue? c.value = some c := by
  cases c <;> rfl

/-- A raw value for an enum-typed field: either a plain string token or
an already-typed enum member (the case `reject_enum_instance_for_job_type`
guards against). -/
inductive EnumInput (α : Type) where
  | str (s : String)
  | member (m : α)
deriving DecidableEq

/-! ## `SalaryInfo` -/

/-- Raw input for a `SalaryInfo` construction. -/
structure RawSalary where
  min_amount : Option ℚ
  max_amount : Option ℚ
  currency : Option Currency
  period : Option String
  is_negotiable : Bool
  original_text : Option String
deriving DecidableEq

/-- A validated `SalaryInfo` (the pydantic model after construction;
`SalaryInfo` itself has no `str_strip_whitespace` config, so its string
fields are untouched). -/
structure SalaryInfo where
  min_amount : Option ℚ
  max_amount : Option ℚ
  currency : Option Currency
  period : Option String
  is_negotiable : Bool
  original_text : Option String
deriving DecidableEq

/-- The constraint `Field(None, ge=0)` on an optional amount. -/
def nonNegOk : Option ℚ → Bool
  | none => true
  | some q => 0 ≤ q

/-- Construction of `SalaryInfo`: the `ge=0` field constraints followed by
the `validate_salary_range` model validator (`min_amount` may not exceed
`max_amount`; never swapped). -/
def SalaryInfo.validate (r : RawSalary) : Except String SalaryInfo :=
  if !nonNegOk r.min_amount then .error "min_amount must be greater than or equal to 0"
  else if !nonNegOk r.max_amount then .error "max_amount must be greater than or equal to 0"
  else
    match r.min_amount, r.max_amount with
    | some m, some M =>
      if m > M then .error "min_amount cannot be greater than max_amount"
      else .ok ⟨r.min_amount, r.max_amount, r.currency, r.period, r.is_negotiable, r.original_text⟩
    | _, _ => .ok ⟨r.min_amount, r.max_amount, r.currency, r.period, r.is_negotiable, r.original_text⟩

/-- The dump (`model_dump`) of a `SalaryInfo`, as raw input for a rebuild. -/
def SalaryInfo.toRaw (s : SalaryInfo) : RawSalary :=
  ⟨s.min_amount, s.max_amount, s.currency, s.period, s.is_negotiable, s.original_text⟩

/-! ## `ExperienceRequirement` -/

structure RawExperience where
  min_years : Option Int
  max_years : Option Int
  original_text : Option String
deriving DecidableEq

structure ExperienceRequirement where
  min_years : Option Int
  max_years : Option Int
  original_text : Option String
deriving DecidableEq

/-- The constraint `Field(None, ge=0, le=50)` on an optional year count. -/
def yearsOk : Option Int → Bool
  | none => true
  | some y => 0 ≤ y && y ≤ 50

/-- Construction of `ExperienceRequirement`: 0-50 field bounds plus the
`validate_experience_range` model validator. -/
def ExperienceRequirement.validate (r : RawExperience) : Except String ExperienceRequirement :=
  if !yearsOk r.min_years then .error "min_years out of range"
  else if !yearsOk r.max_years then .error "max_years out of range"
  else
    match r.min_years, r.max_years with
    | some a, some b =>
      if a > b then .error "min_years cannot be greater than max_years"
      else .ok ⟨r.min_years, r.max_years, r.original_text⟩
    | _, _ => .ok ⟨r.min_years, r.max_years, r.original_text⟩

def ExperienceRequirement.toRaw (e : ExperienceRequirement) : RawExperience :=
  ⟨e.min_years, e.max_years, e.original_text⟩

/-! ## `JobListing` -/

/-- A per-field validation failure: pydantic reports the offending field
name together with the validator message. -/
structure FieldError where
  field : String
  msg : String
deriving DecidableEq

/-- The raw input mapping for a `JobListing` construction.  `datetime`
values are opaque `Int` timestamps. -/
structure RawJob where
  job_id : String
  source : String
  source_url : String
  title : String
  company : String
  job_type : Option (EnumInput JobType)
  seniority : Option (EnumInput SeniorityLevel)
  work_arrangement : Option String
  salary_min : Option ℚ
  salary_max : Option ℚ
  salary : Option RawSalary
  currency : Option (EnumInput Currency)
  description : String
  requirements : Option (List String)
  skills : List String
  languages : List String
  experience : Option RawExperience
  posted_date : Option Int
  scraped_at : Option Int
  expiry_date : Option Int
  is_active : Bool
  is_remote : Option Bool
  has_salary_info : Bool
deriving DecidableEq

/-- A successfully constructed `JobListing`.  `is_remote` is always set
to a concrete boolean by `set_computed_flags`, so it is a `Bool` here. -/
structure JobListing where
  job_id : String
  source : String
  source_url : String
  title : String
  company : String
  job_type : Option JobType
  seniority : Option SeniorityLevel
  work_arrangement : Option String
  salary_min : Option ℚ
  salary_max : Option ℚ
  salary : Option SalaryInfo
  currency : Option Currency
  description : String
  requirements : Option (List String)
  skills : List String
  languages : List String
  experience : Option ExperienceRequirement
  posted_date : Option Int
  scraped_at : Int
  expiry_date : Option Int
  is_active : Bool
  is_remote : Bool
  has_salary_info : Bool
deriving DecidableEq

/-! ### Field validators (each composed with the model-wide
`str_strip_whitespace=True` pre-pass) -/

/-- Validators `validate_non_empty` then `validate_job_id`: after stripping, the id
must be nonempty, contain no space character `' '` (the source checks
only this character, not all whitespace), and contain no hyphen.  The
inner `v = v.strip()` of the source is the second `pyStrip`. -/
def vJobId (s : String) : Except FieldError String :=
  if pyStrip s = "" then .error ⟨"job_id", "Field cannot be empty"⟩
  else if (pyStrip s).data.contains ' ' then
    .error ⟨"job_id", "job_id cannot be empty or contain spaces"⟩
  else if (pyStrip (pyStrip s)).data.contains '-' then
    .error ⟨"job_id", "job_id must not contain a hyphen"⟩
  else .ok (pyStrip (pyStrip s))

/-- Validator `validate_non_empty` for `source`. -/
def vNonEmptyStr (name : String) (s : String) : Except FieldError String :=
  if pyStrip s = "" then .error ⟨name, "Field cannot be empty"⟩
  else .ok (pyStrip s)

/-- Character-list prefix test. -/
def isPrefixList : List Char → List Char → Bool
  | [], _ => true
  | _ :: _, [] => false
  | c :: cs, d :: ds => c = d && isPrefixList cs ds

/-- Scheme `http://` or `https://` followed by a nonempty remainder.  The
pydantic `HttpUrl` type also normalizes the URL; no claim depends on
normalization, so an already-valid URL string is kept verbatim. -/
def isHttpUrl (s : String) : Bool :=
  (isPrefixList "http://".data s.data && s.data.length > 7) ||
    (isPrefixList "https://".data s.data && s.data.length > 8)

/-- The `HttpUrl` parsing plus `validate_non_empty` for `source_url`. -/
def vSourceUrl (s : String) : Except FieldError String :=
  if pyStrip s = "" then .error ⟨"source_url", "Field cannot be empty"⟩
  else if isHttpUrl (pyStrip s) then .ok (pyStrip s)
  else .error ⟨"source_url", "Input is not a valid URL"⟩

/-- Validators `not_empty` then `clean_whitespace` for `title` and `company`. -/
def vTextField (name : String) (s : String) : Except FieldError String :=
  if pyStrip s = "" then .error ⟨name, "Field cannot be empty"⟩
  else .ok (collapseWs (pyStrip s))

/-- Validators `not_empty`, `clean_whitespace`, then `description_starts_with_upper`
for `description` (the upper-case check is skipped on an empty string,
mirroring the `if v and not v[0].isupper()` guard). -/
def vDescription (s : String) : Except FieldError String :=
  if pyStrip s = "" then .error ⟨"description", "Field cannot be empty"⟩
  else
    match (collapseWs (pyStrip s)).data with
    | [] => .ok (collapseWs (pyStrip s))
    | c :: _ =>
      if pyIsUpper c then .ok (collapseWs (pyStrip s))
      else .error ⟨"description", "Description must start with an uppercase letter"⟩

/-- Validator `reject_enum_instance_for_job_type` (mode `before`) followed by enum
validation: an already-typed enum member is rejected, a string token is
matched against the member values. -/
def vJobType : Option (EnumInput JobType) → Except FieldError (Option JobType)
  | none => .ok none
  | some (.member _) => .error ⟨"job_type", "Invalid enum value"⟩
  | some (.str s) =>
    match JobType.ofValue? s with
    | some t => .ok (some t)
    | none => .error ⟨"job_type", "Input should be a valid JobType"⟩

/-- Field `seniority` has no `before` validator: pydantic accepts both a
member of the enum and a matching string value. -/
def vSeniority : Option (EnumInput SeniorityLevel) → Except FieldError (Option SeniorityLevel)
  | none => .ok none
  | some (.member m) => .ok (some m)
  | some (.str s) =>
    match SeniorityLevel.ofValue? s with
    | some t => .ok (some t)
    | none => .error ⟨"seniority", "Input should be a valid SeniorityLevel"⟩

/-- Field `currency`, like `seniority`, accepts members and value strings. -/
def vCurrency : Option (EnumInput Currency) → Except FieldError (Option Currency)
  | none => .ok none
  | some (.member m) => .ok (some m)
  | some (.str s) =>
    match Currency.ofValue? s with
    | some t => .ok (some t)
    | none => .error ⟨"currency", "Input should be a valid Currency"⟩

/-- Nested `SalaryInfo` validation for the `salary` field. -/
def vSalary : Option RawSalary → Except FieldError (Option SalaryInfo)
  | none => .ok none
  | some r =>
    match SalaryInfo.validate r with
    | .ok s => .ok (some s)
    | .error m => .error ⟨"salary", m⟩

/-- Nested `ExperienceRequirement` validation for the `experience` field. -/
def vExperience : Option RawExperience → Except FieldError (Option ExperienceRequirement)
  | none => .ok none
  | some r =>
    match ExperienceRequirement.validate r with
    | .ok e => .ok (some e)
    | .error m => .error ⟨"experience", m⟩

/-- First half of `set_computed_flags`: synthesize a `SalaryInfo` from
the legacy flat fields when `salary` is absent but `salary_min` or
`salary_max` was supplied. -/
def computeSalary (sal : Option SalaryInfo) (mn mx : Option ℚ) (cur : Option Currency) :
    Except String (Option SalaryInfo) :=
  match sal with
  | some s => .ok (some s)
  | none =>
    if mn.isSome || mx.isSome then
      match SalaryInfo.validate ⟨mn, mx, cur, none, false, none⟩ with
      | .ok s => .ok (some s)
      | .error m => .error m
    else .ok none

/-- The `has_salary_info` derivation: a `SalaryInfo` is present and at least
one of its amounts is set (`bool(self.salary and (... or ...))`). -/
def hasSalaryOf : Option SalaryInfo → Bool
  | none => false
  | some s => s.min_amount.isSome || s.max_amount.isSome

/-- The `is_remote` derivation: `work_arrangement` present and equal to
`"remote"` after lowering. -/
def isRemoteOf : Option String → Bool
  | none => false
  | some w => pyLower w = "remote"

/-- One `FieldError` contribution of a field result. -/
def errOf {α : Type} : Except FieldError α → List FieldError
  | .error e => [e]
  | .ok _ => []

/-- All per-field failures of a raw record, in field declaration order
(pydantic collects them instead of stopping at the first). -/
def buildErrors (raw : RawJob) : List FieldError :=
  errOf (vJobId raw.job_id) ++ errOf (vNonEmptyStr "source" raw.source) ++
    errOf (vSourceUrl raw.source_url) ++ errOf (vTextField "title" raw.title) ++
    errOf (vTextField "company" raw.company) ++ errOf (vJobType raw.job_type) ++
    errOf (vSeniority raw.seniority) ++ errOf (vSalary raw.salary) ++
    errOf (vCurrency raw.currency) ++ errOf (vDescription raw.description) ++
    errOf (vExperience raw.experience)

/-- Construction of `JobListing`.  Field validation happens first; if every
field succeeds, the `set_computed_flags` model validator synthesizes the
salary sub-entity and derives `has_salary_info` and `is_remote`.  `now`
is the `datetime.now` default for `scraped_at`, used only when no value
was supplied. -/
def JobListing.build (raw : RawJob) (now : Int) : Except (List FieldError) JobListing :=
  match vJobId raw.job_id, vNonEmptyStr "source" raw.source, vSourceUrl raw.source_url,
      vTextField "title" raw.title, vTextField "company" raw.company,
      vJobType raw.job_type, vSeniority raw.seniority, vSalary raw.salary,
      vCurrency raw.currency, vDescription raw.description, vExperience raw.experience with
  | .ok jid, .ok src, .ok url, .ok ttl, .ok comp, .ok jt, .ok sen, .ok sal, .ok cur,
      .ok desc, .ok exp =>
    match computeSalary sal raw.salary_min raw.salary_max cur with
    | .error m => .error [⟨"salary", m⟩]
    | .ok salFinal =>
      .ok
        { job_id := jid
          source := src
          source_url := url
          title := ttl
          company := comp
          job_type := jt
          seniority := sen
          work_arrangement := raw.work_arrangement.map pyStrip
          salary_min := raw.salary_min
          salary_max := raw.salary_max
          salary := salFinal
          currency := cur
          description := desc
          requirements := raw.requirements.map (fun l => l.map pyStrip)
          skills := cleanListItems (raw.skills.map pyStrip)
          languages := cleanListItems (raw.languages.map pyStrip)
          experience := exp
          posted_date := raw.posted_date
          scraped_at := raw.scraped_at.getD now
          expiry_date := raw.expiry_date
          is_active := raw.is_active
          is_remote := isRemoteOf (raw.work_arrangement.map pyStrip)
          has_salary_info := hasSalaryOf salFinal }
  | _, _, _, _, _, _, _, _, _, _, _ => .error (buildErrors raw)

/-- The dump (`to_dict` / `model_dump`) of a built entity, viewed as raw input for a
rebuild.  `use_enum_values=True` means enum-typed fields dump as their
plain string values. -/
def JobListing.toRaw (e : JobListing) : RawJob where
  job_id := e.job_id
  source := e.source
  source_url := e.source_url
  title := e.title
  company := e.company
  job_type := e.job_type.map (fun t => .str t.value)
  seniority := e.seniority.map (fun s => .str s.value)
  work_arrangement := e.work_arrangement
  salary_min := e.salary_min
  salary_max := e.salary_max
  salary := e.salary.map SalaryInfo.toRaw
  currency := e.currency.map (fun c => .str c.value)
  description := e.description
  requirements := e.requirements
  skills := e.skills
  languages := e.languages
  experience := e.experience.map ExperienceRequirement.toRaw
  posted_date := e.posted_date
  scraped_at := some e.scraped_at
  expiry_date := e.expiry_date
  is_active := e.is_active
  is_remote := some e.is_remote
  has_salary_info := e.has_salary_info

/-! ## Inversion of a successful build -/

/-- Unfolding a successful construction: every field validator succeeded,
the salary synthesis succeeded, and the entity is exactly the record the
model validator assembled. -/
theorem build_ok_inv (raw : RawJob) (now : Int) (e : JobListing)
    (h : JobListing.build raw now = .ok e) :
    ∃ jid src url ttl comp jt sen sal cur desc exp salFinal,
      vJobId raw.job_id = .ok jid ∧
      vNonEmptyStr "source" raw.source = .ok src ∧
      vSourceUrl raw.source_url = .ok url ∧
      vTextField "title" raw.title = .ok ttl ∧
      vTextField "company" raw.company = .ok comp ∧
      vJobType raw.job_type = .ok jt ∧
      vSeniority raw.seniority = .ok sen ∧
      vSalary raw.salary = .ok sal ∧
      vCurrency raw.currency = .ok cur ∧
      vDescription raw.description = .ok desc ∧
      vExperience raw.experience = .ok exp ∧
      computeSalary sal raw.salary_min raw.salary_max cur = .ok salFinal ∧
      e = { job_id := jid
            source := src
            source_url := url
            title := ttl
            company := comp
            job_type := jt
            seniority := sen
            work_arrangement := raw.work_arrangement.map pyStrip
            salary_min := raw.salary_min
            salary_max := raw.salary_max
            salary := salFinal
            currency := cur
            description := desc
            requirements := raw.requirements.map (fun l => l.map pyStrip)
            skills := cleanListItems (raw.skills.map pyStrip)
            languages := cleanListItems (raw.languages.map pyStrip)
            experience := exp
            posted_date := raw.posted_date
            scraped_at := raw.scraped_at.getD now
            expiry_date := raw.expiry_date
            is_active := raw.is_active
            is_remote := isRemoteOf (raw.work_arrangement.map pyStrip)
            has_salary_info := hasSalaryOf salFinal } := by
  unfold JobListing.build at h
  split at h
  · split at h
    · exact Except.noConfusion h
    · next x1 x2 x3 x4 x5 x6 x7 x8 x9 x10 x11 jid src url ttl comp jt sen sal cur desc exp
          hId hSrc hUrl hTtl hComp hJt hSen hSal hCur hDesc hExp x12 salFinal hSalF =>
        refine ⟨jid, src, url, ttl, comp, jt, sen, sal, cur, desc, exp, salFinal,
          hId, hSrc, hUrl, hTtl, hComp, hJt, hSen, hSal, hCur, hDesc, hExp, hSalF, ?_⟩
        injection h with h
        exact h.symm
  · exact Except.noConfusion h

/-! ## Properties of the individual validators -/

theorem vJobId_ok_props (s v : String) (h : vJobId s = .ok v) :
    v = pyStrip s ∧ ' ' ∉ v.data ∧ '-' ∉ v.data ∧ v ≠ "" := by
  unfold vJobId at h
  split_ifs at h with h1 h2 h3
  all_goals try exact Except.noConfusion h
  injection h with h
  have hv : v = pyStrip s := by rw [← h, pyStrip_idem]
  subst hv
  refine ⟨rfl, by simpa using h2, ?_, h1⟩
  rw [pyStrip_idem] at h3
  simpa using h3

theorem vJobId_rebuild (s v : String) (h : vJobId s = .ok v) : vJobId v = .ok v := by
  obtain ⟨hv, hsp, hhy, hne⟩ := vJobId_ok_props s v h
  have hfix : pyStrip v = v := by rw [hv, pyStrip_idem]
  unfold vJobId
  simp only [hfix]
  rw [if_neg hne, if_neg (by simpa using hsp), if_neg (by simpa using hhy)]

theorem vNonEmptyStr_ok_props (name s v : String) (h : vNonEmptyStr name s = .ok v) :
    v = pyStrip s ∧ v ≠ "" := by
  unfold vNonEmptyStr at h
  split_ifs at h with h1
  all_goals try exact Except.noConfusion h
  injection h with h
  exact ⟨h.symm, h ▸ h1⟩

theorem vNonEmptyStr_rebuild (name s v : String) (h : vNonEmptyStr name s = .ok v) :
    vNonEmptyStr name v = .ok v := by
  obtain ⟨hv, hne⟩ := vNonEmptyStr_ok_props name s v h
  have hfix : pyStrip v = v := by rw [hv, pyStrip_idem]
  unfold vNonEmptyStr
  rw [hfix, if_neg hne]

theorem vSourceUrl_ok_props (s v : String) (h : vSourceUrl s = .ok v) :
    v = pyStrip s ∧ v ≠ "" ∧ isHttpUrl v = true := by
  unfold vSourceUrl at h
  split_ifs at h with h1 h2
  all_goals try exact Except.noConfusion h
  injection h with h
  exact ⟨h.symm, h ▸ h1, h ▸ h2⟩

theorem vSourceUrl_rebuild (s v : String) (h : vSourceUrl s = .ok v) :
    vSourceUrl v = .ok v := by
  obtain ⟨hv, hne, hurl⟩ := vSourceUrl_ok_props s v h
  have hfix : pyStrip v = v := by rw [hv, pyStrip_idem]
  unfold vSourceUrl
  rw [hfix, if_neg hne, if_pos hurl]

theorem vTextField_ok_props (name s v : String) (h : vTextField name s = .ok v) :
    v = collapseWs (pyStrip s) ∧ pyStrip s ≠ "" := by
  unfold vTextField at h
  split_ifs at h with h1
  all_goals try exact Except.noConfusion h
  injection h with h
  exact ⟨h.symm, h1⟩

theorem vTextField_rebuild (name s v : String) (h : vTextField name s = .ok v) :
    vTextField name v = .ok v := by
  obtain ⟨hv, hne⟩ := vTextField_ok_props name s v h
  have hlist : stripC s.data ≠ [] := fun hc => hne ((pyStrip_eq_empty_iff s).mpr hc)
  obtain ⟨c1, c2⟩ := collapse_fixed (stripC s.data) (stripC_idem s.data) hlist
  subst hv
  have hcond : ¬ pyStrip (collapseWs (pyStrip s)) = "" := by
    rw [pyStrip_eq_empty_iff]
    exact c1
  unfold vTextField
  rw [if_neg hcond]
  congr 1
  exact congrArg String.mk c2

theorem vDescription_ok_props (s v : String) (h : vDescription s = .ok v) :
    v = collapseWs (pyStrip s) ∧ pyStrip s ≠ "" ∧
      (v.data = [] ∨ ∃ c rest, v.data = c :: rest ∧ pyIsUpper c = true) := by
  unfold vDescription at h
  split_ifs at h with h1
  all_goals try exact Except.noConfusion h
  split at h
  · next hnil =>
    injection h with h
    exact ⟨h.symm, h1, Or.inl (h ▸ hnil)⟩
  · next c rest hcons =>
    split_ifs at h with hup
    all_goals try exact Except.noConfusion h
    injection h with h
    exact ⟨h.symm, h1, Or.inr ⟨c, rest, h ▸ hcons, hup⟩⟩

theorem vDescription_rebuild (s v : String) (h : vDescription s = .ok v) :
    vDescription v = .ok v := by
  obtain ⟨hv, hne, hhead⟩ := vDescription_ok_props s v h
  have hlist : stripC s.data ≠ [] := fun hc => hne ((pyStrip_eq_empty_iff s).mpr hc)
  obtain ⟨c1, c2⟩ := collapse_fixed (stripC s.data) (stripC_idem s.data) hlist
  subst hv
  have hcond : ¬ pyStrip (collapseWs (pyStrip s)) = "" := by
    rw [pyStrip_eq_empty_iff]
    exact c1
  have hfix : collapseWs (pyStrip (collapseWs (pyStrip s))) = collapseWs (pyStrip s) :=
    congrArg String.mk c2
  unfold vDescription
  rw [if_neg hcond, hfix]
  rcases hhead with hnil | ⟨c, rest, hcons, hup⟩
  · rw [hnil]
  · rw [hcons]
    simp [hup]

theorem vJobType_roundtrip (v : Option JobType) :
    vJobType (v.map (fun t => .str t.value)) = .ok v := by
  cases v with
  | none => rfl
  | some t =>
    show vJobType (some (.str t.value)) = .ok (some t)
    simp [vJobType, jobType_ofValue_roundtrip t]

theorem vSeniority_roundtrip (v : Option SeniorityLevel) :
    vSeniority (v.map (fun s => .str s.value)) = .ok v := by
  cases v with
  | none => rfl
  | some t =>
    show vSeniority (some (.str t.value)) = .ok (some t)
    simp [vSeniority, seniority_ofValue_roundtrip t]

theorem vCurrency_roundtrip (v : Option Currency) :
    vCurrency (v.map (fun c => .str c.value)) = .ok v := by
  cases v with
  | none => rfl
  | some t =>
    show vCurrency (some (.str t.value)) = .ok (some t)
    simp [vCurrency, currency_ofValue_roundtrip t]

/-- A successfully validated `SalaryInfo` carries exactly the raw fields. -/
theorem salary_validate_ok_inv (r : RawSalary) (s : SalaryInfo)
    (h : SalaryInfo.validate r = .ok s) :
    s = ⟨r.min_amount, r.max_amount, r.currency, r.period, r.is_negotiable, r.original_text⟩ := by
  unfold SalaryInfo.validate at h
  split_ifs at h with h1 h2
  split at h
  · split_ifs at h with h3
    all_goals try exact Except.noConfusion h
    injection h with h
    exact h.symm
  · injection h with h
    exact h.symm

/-- A validated `SalaryInfo` revalidates to itself (its dump passes the
same checks). -/
theorem salary_validate_rebuild (r : RawSalary) (s : SalaryInfo)
    (h : SalaryInfo.validate r = .ok s) : SalaryInfo.validate s.toRaw = .ok s := by
  have hs := salary_validate_ok_inv r s h
  have htr : s.toRaw = r := by
    subst hs
    show RawSalary.mk r.min_amount r.max_amount r.currency r.period r.is_negotiable
      r.original_text = r
    cases r
    rfl
  rw [htr]
  exact h

theorem experience_validate_ok_inv (r : RawExperience) (e : ExperienceRequirement)
    (h : ExperienceRequirement.validate r = .ok e) :
    e = ⟨r.min_years, r.max_years, r.original_text⟩ := by
  unfold ExperienceRequirement.validate at h
  split_ifs at h with h1 h2
  split at h
  · split_ifs at h with h3
    all_goals try exact Except.noConfusion h
    injection h with h
    exact h.symm
  · injection h with h
    exact h.symm

theorem experience_validate_rebuild (r : RawExperience) (e : ExperienceRequirement)
    (h : ExperienceRequirement.validate r = .ok e) :
    ExperienceRequirement.validate e.toRaw = .ok e := by
  have he := experience_validate_ok_inv r e h
  have htr : e.toRaw = r := by
    subst he
    show RawExperience.mk r.min_years r.max_years r.original_text = r
    cases r
    rfl
  rw [htr]
  exact h

/-- Every `some` result of `vSalary` revalidates to itself. -/
theorem vSalary_ok_valid (i : Option RawSalary) (v : Option SalaryInfo)
    (h : vSalary i = .ok v) :
    ∀ s, v = some s → SalaryInfo.validate s.toRaw = .ok s := by
  intro s hv
  subst hv
  cases i with
  | none =>
    have h0 : (Except.ok (none : Option SalaryInfo) :
        Except FieldError (Option SalaryInfo)) = .ok (some s) := h
    injection h0 with h0
    exact Option.noConfusion h0
  | some r =>
    have h1 : (match SalaryInfo.validate r with
        | .ok s2 => (Except.ok (some s2) : Except FieldError (Option SalaryInfo))
        | .error m => .error ⟨"salary", m⟩) = .ok (some s) := h
    cases hval : SalaryInfo.validate r with
    | ok s2 =>
      rw [hval] at h1
      have h2 : (Except.ok (some s2) :
          Except FieldError (Option SalaryInfo)) = .ok (some s) := h1
      injection h2 with h2
      injection h2 with h2
      subst h2
      exact salary_validate_rebuild r _ hval
    | error m =>
      rw [hval] at h1
      exact Except.noConfusion h1

theorem vSalary_rebuild_of_valid (v : Option SalaryInfo)
    (hval : ∀ s, v = some s → SalaryInfo.validate s.toRaw = .ok s) :
    vSalary (v.map SalaryInfo.toRaw) = .ok v := by
  cases v with
  | none => rfl
  | some s =>
    show vSalary (some s.toRaw) = .ok (some s)
    have h1 : vSalary (some s.toRaw) = (match SalaryInfo.validate s.toRaw with
        | .ok s2 => (Except.ok (some s2) : Except FieldError (Option SalaryInfo))
        | .error m => .error ⟨"salary", m⟩) := rfl
    rw [h1, hval s rfl]

theorem vExperience_rebuild (i : Option RawExperience) (v : Option ExperienceRequirement)
    (h : vExperience i = .ok v) :
    vExperience (v.map ExperienceRequirement.toRaw) = .ok v := by
  cases v with
  | none => rfl
  | some e =>
    cases i with
    | none =>
      have h0 : (Except.ok (none : Option ExperienceRequirement) :
          Except FieldError (Option ExperienceRequirement)) = .ok (some e) := h
      injection h0 with h0
      exact Option.noConfusion h0
    | some r =>
      have h1 : (match ExperienceRequirement.validate r with
          | .ok e2 => (Except.ok (some e2) : Except FieldError (Option ExperienceRequirement))
          | .error m => .error ⟨"experience", m⟩) = .ok (some e) := h
      cases hval : ExperienceRequirement.validate r with
      | ok e2 =>
        rw [hval] at h1
        have h2 : (Except.ok (some e2) :
            Except FieldError (Option ExperienceRequirement)) = .ok (some e) := h1
        injection h2 with h2
        injection h2 with h2
        subst h2
        show vExperience (some e2.toRaw) = .ok (some e2)
        have h3 : vExperience (some e2.toRaw) =
            (match ExperienceRequirement.validate e2.toRaw with
            | .ok x => (Except.ok (some x) : Except FieldError (Option ExperienceRequirement))
            | .error m => .error ⟨"experience", m⟩) := rfl
        rw [h3, experience_validate_rebuild r e2 hval]
      | error m =>
        rw [hval] at h1
        exact Except.noConfusion h1

/-- Results of `computeSalary` only hold revalidating sub-entities. -/
theorem computeSalary_ok_valid (sal : Option SalaryInfo) (mn mx : Option ℚ)
    (cur : Option Currency) (v : Option SalaryInfo)
    (hsal : ∀ s, sal = some s → SalaryInfo.validate s.toRaw = .ok s)
    (h : computeSalary sal mn mx cur = .ok v) :
    ∀ s, v = some s → SalaryInfo.validate s.toRaw = .ok s := by
  intro s hv
  subst hv
  cases sal with
  | some s0 =>
    have h0 : (Except.ok (some s0) : Except String (Option SalaryInfo)) = .ok (some s) := h
    injection h0 with h0
    injection h0 with h0
    exact h0 ▸ hsal s0 rfl
  | none =>
    have h1 : (if (mn.isSome || mx.isSome) = true then
        match SalaryInfo.validate ⟨mn, mx, cur, none, false, none⟩ with
        | .ok s2 => (Except.ok (some s2) : Except String (Option SalaryInfo))
        | .error m => .error m
      else .ok none) = .ok (some s) := h
    split_ifs at h1 with hc
    · cases hval : SalaryInfo.validate ⟨mn, mx, cur, none, false, none⟩ with
      | ok s2 =>
        rw [hval] at h1
        have h2 : (Except.ok (some s2) : Except String (Option SalaryInfo)) = .ok (some s) := h1
        injection h2 with h2
        injection h2 with h2
        subst h2
        exact salary_validate_rebuild _ _ hval
      | error m =>
        rw [hval] at h1
        exact Except.noConfusion h1
    · have h2 : (Except.ok (none : Option SalaryInfo) :
          Except String (Option SalaryInfo)) = .ok (some s) := h1
      injection h2 with h2
      exact Option.noConfusion h2

/-- When the final salary is absent, no synthesis was triggered: rerunning
`computeSalary` on the dump reproduces the result. -/
theorem computeSalary_rebuild (sal : Option SalaryInfo) (mn mx : Option ℚ)
    (cur : Option Currency) (v : Option SalaryInfo)
    (h : computeSalary sal mn mx cur = .ok v) :
    computeSalary v mn mx cur = .ok v := by
  cases v with
  | some s => rfl
  | none =>
    cases sal with
    | some s0 =>
      have h0 : (Except.ok (some s0) : Except String (Option SalaryInfo)) = .ok none := h
      injection h0 with h0
      exact Option.noConfusion h0
    | none =>
      have h1 : (if (mn.isSome || mx.isSome) = true then
          match SalaryInfo.validate ⟨mn, mx, cur, none, false, none⟩ with
          | .ok s2 => (Except.ok (some s2) : Except String (Option SalaryInfo))
          | .error m => .error m
        else .ok none) = .ok none := h
      split_ifs at h1 with hc
      · cases hval : SalaryInfo.validate ⟨mn, mx, cur, none, false, none⟩ with
        | ok s2 =>
          rw [hval] at h1
          have h2 : (Except.ok (some s2) : Except String (Option SalaryInfo)) = .ok none := h1
          injection h2 with h2
        | error m =>
          rw [hval] at h1
          exact Except.noConfusion h1
      · have hgoal : computeSalary none mn mx cur = (if (mn.isSome || mx.isSome) = true then
            match SalaryInfo.validate ⟨mn, mx, cur, none, false, none⟩ with
            | .ok s2 => (Except.ok (some s2) : Except String (Option SalaryInfo))
            | .error m => .error m
          else .ok none) := rfl
        rw [hgoal, if_neg hc]


theorem option_map_strip_idem (o : Option String) :
    (o.map pyStrip).map pyStrip = o.map pyStrip := by
  cases o with
  | none => rfl
  | some s =>
    show some (pyStrip (pyStrip s)) = some (pyStrip s)
    rw [pyStrip_idem]

theorem option_list_map_strip_idem (o : Option (List String)) :
    (o.map (fun l => l.map pyStrip)).map (fun l => l.map pyStrip) =
      o.map (fun l => l.map pyStrip) := by
  cases o with
  | none => rfl
  | some l =>
    show some ((l.map pyStrip).map pyStrip) = some (l.map pyStrip)
    rw [List.map_map]
    exact congrArg some (List.map_congr_left (fun a _ => pyStrip_idem a))

/-- Rebuilding the cleaned `skills`/`languages` list (config strip pass
plus `clean_list_items`) is the identity. -/
theorem cleanListItems_rebuild (v : List String) :
    cleanListItems ((cleanListItems (v.map pyStrip)).map pyStrip) =
      cleanListItems (v.map pyStrip) := by
  rw [cleanListItems_map_strip_pre, cleanListItems_idem]

/-! ## The failure path -/

/-- When some field failed, `build` returns the collected error list. -/
theorem build_eq_error (raw : RawJob) (now : Int) (hne : buildErrors raw ≠ []) :
    JobListing.build raw now = .error (buildErrors raw) := by
  unfold JobListing.build
  split
  · next x1 x2 x3 x4 x5 x6 x7 x8 x9 x10 x11 jid src url ttl comp jt sen sal cur desc exp
        hId hSrc hUrl hTtl hComp hJt hSen hSal hCur hDesc hExp =>
      exfalso
      apply hne
      unfold buildErrors
      rw [hId, hSrc, hUrl, hTtl, hComp, hJt, hSen, hSal, hCur, hDesc, hExp]
      rfl
  · rfl

theorem build_fails_with (raw : RawJob) (now : Int) (err : FieldError)
    (hmem : err ∈ buildErrors raw) :
    ∃ errs, JobListing.build raw now = .error errs ∧ err ∈ errs :=
  ⟨buildErrors raw, build_eq_error raw now (List.ne_nil_of_mem hmem), hmem⟩

theorem mem_buildErrors_jobId (raw : RawJob) (err : FieldError)
    (h : vJobId raw.job_id = .error err) : err ∈ buildErrors raw := by
  unfold buildErrors
  rw [h]
  simp [errOf]

theorem mem_buildErrors_jobType (raw : RawJob) (err : FieldError)
    (h : vJobType raw.job_type = .error err) : err ∈ buildErrors raw := by
  unfold buildErrors
  rw [h]
  simp [errOf]

/-- Every `vJobId` failure is tagged to the `job_id` field. -/
theorem vJobId_error_field (s : String) (err : FieldError) (h : vJobId s = .error err) :
    err.field = "job_id" := by
  unfold vJobId at h
  split_ifs at h <;> (injection h with h; rw [← h])

/-- A stripped id containing a space or a hyphen never validates. -/
theorem vJobId_fails (s : String)
    (hsp : ' ' ∈ (pyStrip s).data ∨ '-' ∈ (pyStrip s).data) :
    ∃ err, vJobId s = .error err ∧ err.field = "job_id" := by
  cases hv : vJobId s with
  | error err => exact ⟨err, rfl, vJobId_error_field s err hv⟩
  | ok v =>
    obtain ⟨hveq, hspace, hhyph, _⟩ := vJobId_ok_props s v hv
    subst hveq
    rcases hsp with hmem | hmem
    · exact absurd hmem hspace
    · exact absurd hmem hhyph

/-- Nonempty collapse: a nonempty stripped input collapses to a nonempty
string. -/
theorem collapseC_ne_nil (t : List Char) (hfix : stripC t = t) (hne : t ≠ []) :
    collapseC t ≠ [] := by
  have hgood := splitC_good t [] (by simp)
  have hhead : ∃ c, t.head? = some c := by
    cases t with
    | nil => exact absurd rfl hne
    | cons a u => exact ⟨a, rfl⟩
  obtain ⟨c, hc⟩ := hhead
  have hcns := stripC_head_false t c (by rw [hfix]; exact hc)
  have hwne := splitC_ne_nil_of_head t c hc hcns
  unfold collapseC
  cases hws : splitC t [] with
  | nil => exact absurd hws hwne
  | cons w ws =>
    obtain ⟨hw, _⟩ := hgood w (by rw [hws]; exact List.mem_cons_self _ _)
    cases ws with
    | nil => simpa [joinC] using hw
    | cons w2 ws2 =>
      show w ++ ' ' :: joinC (w2 :: ws2) ≠ []
      simp

/-- Synthesis inversion: with no explicit salary and a flat amount
present, a successful `computeSalary` yields exactly the record built from
the flat fields. -/
theorem computeSalary_synth (mn mx : Option ℚ) (cur : Option Currency)
    (v : Option SalaryInfo) (hflat : (mn.isSome || mx.isSome) = true)
    (h : computeSalary none mn mx cur = .ok v) :
    v = some ⟨mn, mx, cur, none, false, none⟩ := by
  have h1 : (if (mn.isSome || mx.isSome) = true then
      match SalaryInfo.validate ⟨mn, mx, cur, none, false, none⟩ with
      | .ok s2 => (Except.ok (some s2) : Except String (Option SalaryInfo))
      | .error m => .error m
    else .ok none) = .ok v := h
  rw [if_pos hflat] at h1
  cases hval : SalaryInfo.validate ⟨mn, mx, cur, none, false, none⟩ with
  | ok s2 =>
    rw [hval] at h1
    have h2 : (Except.ok (some s2) : Except String (Option SalaryInfo)) = .ok v := h1
    injection h2 with h2
    rw [← h2, salary_validate_ok_inv _ _ hval]
  | error m =>
    rw [hval] at h1
    exact Except.noConfusion h1

/-! ## Concrete sample records -/

/-- A minimal valid raw record. -/
def plainRaw : RawJob where
  job_id := "test_1"
  source := "src"
  source_url := "https://t.co/x"
  title := "T"
  company := "C"
  job_type := none
  seniority := none
  work_arrangement := none
  salary_min := none
  salary_max := none
  salary := none
  currency := none
  description := "Desc here."
  requirements := none
  skills := []
  languages := []
  experience := none
  posted_date := none
  scraped_at := none
  expiry_date := none
  is_active := true
  is_remote := none
  has_salary_info := false

/-- The entity built from `plainRaw`. -/
def plainEnt : JobListing where
  job_id := "test_1"
  source := "src"
  source_url := "https://t.co/x"
  title := "T"
  company := "C"
  job_type := none
  seniority := none
  work_arrangement := none
  salary_min := none
  salary_max := none
  salary := none
  currency := none
  description := "Desc here."
  requirements := none
  skills := []
  languages := []
  experience := none
  posted_date := none
  scraped_at := 0
  expiry_date := none
  is_active := true
  is_remote := false
  has_salary_info := false

/-- The end-to-end scenario record of the specification. -/
def exRaw : RawJob :=
  { plainRaw with
    job_id := "wuzzuf_12345"
    source := "wuzzuf"
    source_url := "https://wuzzuf.net/x"
    title := "  Software Engineer  "
    company := "Tech Corp"
    description := "An exciting role in a dynamic company."
    salary_min := some 15000
    salary_max := some 20000
    currency := some (.str "AED") }

def exEnt : JobListing :=
  { plainEnt with
    job_id := "wuzzuf_12345"
    source := "wuzzuf"
    source_url := "https://wuzzuf.net/x"
    title := "Software Engineer"
    company := "Tech Corp"
    description := "An exciting role in a dynamic company."
    salary_min := some 15000
    salary_max := some 20000
    salary := some ⟨some 15000, some 20000, some .AED, none, false, none⟩
    currency := some .AED
    has_salary_info := true }

def remoteRaw : RawJob := { plainRaw with job_id := "test_2", work_arrangement := some "Remote" }

def remoteEnt : JobListing :=
  { plainEnt with job_id := "test_2", work_arrangement := some "Remote", is_remote := true }

def c1Raw : RawJob :=
  { plainRaw with skills := ["Python", " python ", "Go"], languages := ["Arabic", "Arabic"] }

def c1Ent : JobListing :=
  { plainEnt with skills := ["Python", "python", "Go"], languages := ["Arabic"] }

def c2Raw : RawJob := { plainRaw with job_id := "ab\tcd" }

def c2Ent : JobListing := { plainEnt with job_id := "ab\tcd" }

def c2badRaw : RawJob := { plainRaw with job_id := "bad-id" }

def c3Raw : RawJob := { plainRaw with seniority := some (.member .senior) }

def c3Ent : JobListing := { plainEnt with seniority := some .senior }

def c3jtRaw : RawJob := { plainRaw with job_type := some (.member .full_time) }

def c8Raw : RawJob := { plainRaw with description := "an exciting role" }

def c10rs : RawSalary := ⟨some 1000, some 2000, some .USD, some "per month", true,
  some "1000 - 2000 USD"⟩

def c10Raw : RawJob :=
  { plainRaw with
    salary := some c10rs
    salary_min := some 5
    salary_max := some 7
    currency := some (.str "EGP") }

def c10Sal : SalaryInfo := ⟨some 1000, some 2000, some .USD, some "per month", true,
  some "1000 - 2000 USD"⟩

def c10Ent : JobListing :=
  { plainEnt with
    salary := some c10Sal
    salary_min := some 5
    salary_max := some 7
    currency := some .EGP
    has_salary_info := true }

def c7invRaw : RawSalary := ⟨some 20000, some 15000, some .AED, none, false, none⟩

def c7okRaw : RawSalary := ⟨some 15000, some 20000, some .AED, none, false, none⟩

def c7okSal : SalaryInfo := ⟨some 15000, some 20000, some .AED, none, false, none⟩

/-! ## Claim theorems -/

/-- C1 (counterexample): the claimed example output is wrong on the code —
`dict.fromkeys` deduplicates case-sensitively, so `" python "` survives as
`"python"` rather than collapsing into `"Python"`. -/
theorem C1_counterexample :
    cleanListItems ["Python", " python ", "Go"] ≠ ["Python", "Go"] := by decide

/-- C1 (amended): on every successfully built entity, `skills` and
`languages` have no empty or whitespace-only entries after trimming, no
duplicates, and preserve first-seen relative order (each stored list is a
subsequence of the trimmed filtered input with the same members);
deduplication is case-sensitive, so the example input
`["Python", " python ", "Go"]` yields `["Python", "python", "Go"]`. -/
theorem C1_clean_lists (raw : RawJob) (now : Int) (e : JobListing)
    (h : JobListing.build raw now = .ok e) :
    (e.skills.Nodup ∧ (∀ s ∈ e.skills, s ≠ "" ∧ pyStrip s = s) ∧
      e.skills.Sublist (cleanedOf (raw.skills.map pyStrip)) ∧
      (∀ s, s ∈ e.skills ↔ s ∈ cleanedOf (raw.skills.map pyStrip))) ∧
    (e.languages.Nodup ∧ (∀ s ∈ e.languages, s ≠ "" ∧ pyStrip s = s) ∧
      e.languages.Sublist (cleanedOf (raw.languages.map pyStrip)) ∧
      (∀ s, s ∈ e.languages ↔ s ∈ cleanedOf (raw.languages.map pyStrip))) ∧
    cleanListItems ["Python", " python ", "Go"] = ["Python", "python", "Go"] := by
  obtain ⟨jid, src, url, ttl, comp, jt, sen, sal, cur, desc, exp, salFinal,
    hId, hSrc, hUrl, hTtl, hComp, hJt, hSen, hSal, hCur, hDesc, hExp, hSalF, he⟩ :=
    build_ok_inv raw now e h
  subst he
  exact ⟨⟨cleanListItems_nodup _, mem_cleanListItems _,
      cleanListItems_sublist _, fun s => mem_dedupeFirst _ s⟩,
    ⟨cleanListItems_nodup _, mem_cleanListItems _,
      cleanListItems_sublist _, fun s => mem_dedupeFirst _ s⟩,
    by decide⟩

theorem C1_witness :
    c1Ent.skills.Nodup ∧ ("Go" ≠ "" ∧ pyStrip "Go" = "Go") ∧
      c1Ent.skills = ["Python", "python", "Go"] ∧ c1Ent.languages = ["Arabic"] :=
  ⟨(C1_clean_lists c1Raw 0 c1Ent rfl).1.1,
   (C1_clean_lists c1Raw 0 c1Ent rfl).1.2.1 "Go" (by decide), by decide, by decide⟩

/-- C2 (counterexample): a tab character inside `job_id` is whitespace,
yet construction succeeds and stores it — the source only rejects the
space character. -/
theorem C2_counterexample :
    JobListing.build c2Raw 0 = .ok c2Ent ∧ '\t' ∈ c2Ent.job_id.data ∧
      pyIsSpace '\t' = true :=
  ⟨rfl, by decide, rfl⟩

/-- C2 (amended): a successfully built `job_id` contains no space
character (U+0020) and no hyphen; and whenever the stripped `job_id`
contains a space or a hyphen, construction fails with an error on field
`job_id`.  Other whitespace (e.g. tab) inside the id is not rejected. -/
theorem C2_job_id_format :
    (∀ (raw : RawJob) (now : Int) (e : JobListing), JobListing.build raw now = .ok e →
        ' ' ∉ e.job_id.data ∧ '-' ∉ e.job_id.data) ∧
    (∀ (raw : RawJob) (now : Int),
        (' ' ∈ (pyStrip raw.job_id).data ∨ '-' ∈ (pyStrip raw.job_id).data) →
        ∃ errs, JobListing.build raw now = .error errs ∧
          ∃ err ∈ errs, err.field = "job_id") := by
  constructor
  · intro raw now e h
    obtain ⟨jid, src, url, ttl, comp, jt, sen, sal, cur, desc, exp, salFinal,
      hId, hSrc, hUrl, hTtl, hComp, hJt, hSen, hSal, hCur, hDesc, hExp, hSalF, he⟩ :=
      build_ok_inv raw now e h
    obtain ⟨_, hsp, hhy, _⟩ := vJobId_ok_props _ _ hId
    subst he
    exact ⟨hsp, hhy⟩
  · intro raw now hmem
    obtain ⟨err, herr, hfield⟩ := vJobId_fails raw.job_id hmem
    obtain ⟨errs, hbuild, hin⟩ := build_fails_with raw now err (mem_buildErrors_jobId raw err herr)
    exact ⟨errs, hbuild, err, hin, hfield⟩

theorem C2_witness :
    (' ' ∉ plainEnt.job_id.data ∧ '-' ∉ plainEnt.job_id.data) ∧
      (∃ errs, JobListing.build c2badRaw 0 = .error errs ∧
        ∃ err ∈ errs, err.field = "job_id") :=
  ⟨C2_job_id_format.1 plainRaw 0 plainEnt rfl,
   C2_job_id_format.2 c2badRaw 0 (Or.inr (by decide))⟩

/-- C3 (counterexample): a `SeniorityLevel` enum member supplied as
`seniority` is accepted — construction succeeds and stores the member, so
the claimed rejection holds only for `job_type`. -/
theorem C3_counterexample :
    c3Raw.seniority = some (.member .senior) ∧
      JobListing.build c3Raw 0 = .ok c3Ent ∧ c3Ent.seniority = some .senior :=
  ⟨rfl, rfl, rfl⟩

/-- C3 (amended): an already-typed enum member is rejected for `job_type`
(with an error on that field), while an enum member supplied as
`seniority` is accepted and stored. -/
theorem C3_enum_inputs :
    (∀ (raw : RawJob) (now : Int) (m : JobType), raw.job_type = some (.member m) →
        ∃ errs, JobListing.build raw now = .error errs ∧
          ∃ err ∈ errs, err.field = "job_type") ∧
    (∀ (raw : RawJob) (now : Int) (e : JobListing) (m : SeniorityLevel),
        raw.seniority = some (.member m) → JobListing.build raw now = .ok e →
        e.seniority = some m) := by
  constructor
  · intro raw now m hm
    have herr : vJobType raw.job_type = .error ⟨"job_type", "Invalid enum value"⟩ := by
      rw [hm]
      rfl
    obtain ⟨errs, hbuild, hin⟩ :=
      build_fails_with raw now _ (mem_buildErrors_jobType raw _ herr)
    exact ⟨errs, hbuild, _, hin, rfl⟩
  · intro raw now e m hm h
    obtain ⟨jid, src, url, ttl, comp, jt, sen, sal, cur, desc, exp, salFinal,
      hId, hSrc, hUrl, hTtl, hComp, hJt, hSen, hSal, hCur, hDesc, hExp, hSalF, he⟩ :=
      build_ok_inv raw now e h
    rw [hm] at hSen
    have h2 : (Except.ok (some m) : Except FieldError (Option SeniorityLevel)) = .ok sen := hSen
    injection h2 with h2
    subst he
    exact h2.symm

theorem C3_witness :
    (∃ errs, JobListing.build c3jtRaw 0 = .error errs ∧
        ∃ err ∈ errs, err.field = "job_type") ∧
      c3Ent.seniority = some .senior :=
  ⟨C3_enum_inputs.1 c3jtRaw 0 .full_time rfl,
   C3_enum_inputs.2 c3Raw 0 c3Ent .senior rfl rfl⟩

/-- C4: `has_salary_info` is true exactly when a salary sub-entity is
present with at least one of its amounts set. -/
theorem C4_has_salary_info_iff (raw : RawJob) (now : Int) (e : JobListing)
    (h : JobListing.build raw now = .ok e) :
    e.has_salary_info = true ↔
      ∃ s, e.salary = some s ∧
        (s.min_amount.isSome = true ∨ s.max_amount.isSome = true) := by
  obtain ⟨jid, src, url, ttl, comp, jt, sen, sal, cur, desc, exp, salFinal,
    hId, hSrc, hUrl, hTtl, hComp, hJt, hSen, hSal, hCur, hDesc, hExp, hSalF, he⟩ :=
    build_ok_inv raw now e h
  subst he
  show hasSalaryOf salFinal = true ↔
    ∃ s, salFinal = some s ∧ (s.min_amount.isSome = true ∨ s.max_amount.isSome = true)
  cases salFinal with
  | none => simp [hasSalaryOf]
  | some s => simp [hasSalaryOf]

theorem C4_witness :
    (exEnt.has_salary_info = true ↔
      ∃ s, exEnt.salary = some s ∧
        (s.min_amount.isSome = true ∨ s.max_amount.isSome = true)) ∧
      exEnt.has_salary_info = true ∧ plainEnt.has_salary_info = false :=
  ⟨C4_has_salary_info_iff exRaw 0 exEnt rfl, rfl, rfl⟩

/-- C5: `is_remote` is true exactly when `work_arrangement` is present
and equals `"remote"` after lowering; it is false, never absent,
otherwise. -/
theorem C5_is_remote_iff (raw : RawJob) (now : Int) (e : JobListing)
    (h : JobListing.build raw now = .ok e) :
    e.is_remote = true ↔
      ∃ w, e.work_arrangement = some w ∧ pyLower w = "remote" := by
  obtain ⟨jid, src, url, ttl, comp, jt, sen, sal, cur, desc, exp, salFinal,
    hId, hSrc, hUrl, hTtl, hComp, hJt, hSen, hSal, hCur, hDesc, hExp, hSalF, he⟩ :=
    build_ok_inv raw now e h
  subst he
  show isRemoteOf (raw.work_arrangement.map pyStrip) = true ↔
    ∃ w, raw.work_arrangement.map pyStrip = some w ∧ pyLower w = "remote"
  rcases raw.work_arrangement.map pyStrip with _ | w <;> simp [isRemoteOf]

theorem C5_witness :
    (remoteEnt.is_remote = true ↔
      ∃ w, remoteEnt.work_arrangement = some w ∧ pyLower w = "remote") ∧
      remoteEnt.is_remote = true ∧ plainEnt.is_remote = false :=
  ⟨C5_is_remote_iff remoteRaw 0 remoteEnt rfl, rfl, rfl⟩

/-- C9: for every input on which construction succeeds, re-running
construction on the dumped (sanitized) output yields the identical
entity: sanitization and derivation are a fixed point of `build`. -/
theorem C9_build_idempotent (raw : RawJob) (now now2 : Int) (e : JobListing)
    (h : JobListing.build raw now = .ok e) :
    JobListing.build e.toRaw now2 = .ok e := by
  obtain ⟨jid, src, url, ttl, comp, jt, sen, sal, cur, desc, exp, salFinal,
    hId, hSrc, hUrl, hTtl, hComp, hJt, hSen, hSal, hCur, hDesc, hExp, hSalF, he⟩ :=
    build_ok_inv raw now e h
  subst he
  have hvalid := computeSalary_ok_valid sal raw.salary_min raw.salary_max cur salFinal
    (vSalary_ok_valid raw.salary sal hSal) hSalF
  unfold JobListing.build
  simp only [JobListing.toRaw]
  rw [vJobId_rebuild _ _ hId, vNonEmptyStr_rebuild _ _ _ hSrc, vSourceUrl_rebuild _ _ hUrl,
    vTextField_rebuild _ _ _ hTtl, vTextField_rebuild _ _ _ hComp, vJobType_roundtrip jt,
    vSeniority_roundtrip sen, vSalary_rebuild_of_valid salFinal hvalid,
    vCurrency_roundtrip cur, vDescription_rebuild _ _ hDesc, vExperience_rebuild _ _ hExp]
  simp only [computeSalary_rebuild _ _ _ _ _ hSalF, cleanListItems_rebuild,
    option_map_strip_idem, option_list_map_strip_idem, Option.getD_some]

theorem C9_witness :
    JobListing.build exRaw 0 = .ok exEnt ∧
      JobListing.build exEnt.toRaw 5 = .ok exEnt :=
  ⟨rfl, C9_build_idempotent exRaw 0 5 exEnt rfl⟩

/-- C6: when no salary sub-entity was supplied but a flat amount was, the
built entity carries a `SalaryInfo` synthesized from `salary_min`,
`salary_max` and the (validated) currency, and `has_salary_info`
reflects it. -/
theorem C6_salary_synthesis (raw : RawJob) (now : Int) (e : JobListing)
    (hno : raw.salary = none)
    (hflat : raw.salary_min.isSome = true ∨ raw.salary_max.isSome = true)
    (h : JobListing.build raw now = .ok e) :
    e.salary = some ⟨raw.salary_min, raw.salary_max, e.currency, none, false, none⟩ ∧
      e.has_salary_info = true := by
  obtain ⟨jid, src, url, ttl, comp, jt, sen, sal, cur, desc, exp, salFinal,
    hId, hSrc, hUrl, hTtl, hComp, hJt, hSen, hSal, hCur, hDesc, hExp, hSalF, he⟩ :=
    build_ok_inv raw now e h
  rw [hno] at hSal
  have hsal0 : (Except.ok (none : Option SalaryInfo) :
      Except FieldError (Option SalaryInfo)) = .ok sal := hSal
  injection hsal0 with hsal0
  rw [← hsal0] at hSalF
  have hflatb : (raw.salary_min.isSome || raw.salary_max.isSome) = true := by
    rcases hflat with h1 | h1 <;> simp [h1]
  have hsynth := computeSalary_synth _ _ _ _ hflatb hSalF
  subst he
  constructor
  · show salFinal = some ⟨raw.salary_min, raw.salary_max, cur, none, false, none⟩
    exact hsynth
  · show hasSalaryOf salFinal = true
    rw [hsynth]
    show (raw.salary_min.isSome || raw.salary_max.isSome) = true
    exact hflatb

theorem C6_witness :
    (exEnt.salary =
        some ⟨exRaw.salary_min, exRaw.salary_max, exEnt.currency, none, false, none⟩ ∧
      exEnt.has_salary_info = true) ∧
    exEnt.title = "Software Engineer" ∧
      exEnt.salary.map SalaryInfo.min_amount = some (some 15000) :=
  ⟨C6_salary_synthesis exRaw 0 exEnt rfl (Or.inl rfl) rfl, by decide, by decide⟩

/-- Helper for C7: a successful `SalaryInfo` validation carries the raw
amounts unchanged, and when both are present they are ordered and
non-negative. -/
theorem salary_validate_ok_range (r : RawSalary) (s : SalaryInfo)
    (h : SalaryInfo.validate r = .ok s) :
    s.min_amount = r.min_amount ∧ s.max_amount = r.max_amount ∧
      ∀ m M, s.min_amount = some m → s.max_amount = some M →
        m ≤ M ∧ 0 ≤ m ∧ 0 ≤ M := by
  have hs := salary_validate_ok_inv r s h
  subst hs
  refine ⟨rfl, rfl, ?_⟩
  intro m M hm hM
  have hm2 : r.min_amount = some m := hm
  have hM2 : r.max_amount = some M := hM
  unfold SalaryInfo.validate at h
  split_ifs at h with h1 h2
  have hnn1 : nonNegOk r.min_amount = true := by simpa using h1
  have hnn2 : nonNegOk r.max_amount = true := by simpa using h2
  rw [hm2] at hnn1
  rw [hM2] at hnn2
  have h0m : 0 ≤ m := by simpa [nonNegOk] using hnn1
  have h0M : 0 ≤ M := by simpa [nonNegOk] using hnn2
  rw [hm2, hM2] at h
  have h3 : (if M < m then
      (Except.error "min_amount cannot be greater than max_amount" : Except String SalaryInfo)
    else .ok ⟨some m, some M, r.currency, r.period, r.is_negotiable, r.original_text⟩) =
      .ok ⟨some m, some M, r.currency, r.period, r.is_negotiable, r.original_text⟩ := h
  split_ifs at h3 with h4
  exact ⟨le_of_not_lt h4, h0m, h0M⟩

/-- C7: an inverted range (`min_amount > max_amount`, both present) is a
hard construction failure for `SalaryInfo`; a successful construction
never swaps the amounts and satisfies `min ≤ max` with both
non-negative when both are present. -/
theorem C7_salary_range (r : RawSalary) :
    ((∃ m M, r.min_amount = some m ∧ r.max_amount = some M ∧ M < m) →
        ∃ msg, SalaryInfo.validate r = .error msg) ∧
    (∀ s, SalaryInfo.validate r = .ok s →
        s.min_amount = r.min_amount ∧ s.max_amount = r.max_amount ∧
          ∀ m M, s.min_amount = some m → s.max_amount = some M →
            m ≤ M ∧ 0 ≤ m ∧ 0 ≤ M) := by
  constructor
  · rintro ⟨m, M, hm, hM, hlt⟩
    cases hv : SalaryInfo.validate r with
    | error msg => exact ⟨msg, rfl⟩
    | ok s =>
      exfalso
      obtain ⟨hmin, hmax, hrange⟩ := salary_validate_ok_range r s hv
      obtain ⟨hle, _, _⟩ := hrange m M (by rw [hmin]; exact hm) (by rw [hmax]; exact hM)
      exact absurd hlt (not_lt.mpr hle)
  · intro s hv
    exact salary_validate_ok_range r s hv

theorem C7_witness :
    (∃ msg, SalaryInfo.validate c7invRaw = .error msg) ∧
      (c7okSal.min_amount = c7okRaw.min_amount ∧ c7okSal.max_amount = c7okRaw.max_amount ∧
        ∀ m M, c7okSal.min_amount = some m → c7okSal.max_amount = some M →
          m ≤ M ∧ 0 ≤ m ∧ 0 ≤ M) :=
  ⟨(C7_salary_range c7invRaw).1 ⟨20000, 15000, rfl, rfl, by norm_num⟩,
   (C7_salary_range c7okRaw).2 c7okSal rfl⟩

/-- C8: every successfully built description starts with an uppercase
letter (the entity stores the trimmed text, so its first character is the
first character after trimming); the lowercase example input is rejected
with an error on field `description`. -/
theorem C8_description_upper :
    (∀ (raw : RawJob) (now : Int) (e : JobListing), JobListing.build raw now = .ok e →
        ∃ c rest, e.description.data = c :: rest ∧ pyIsUpper c = true) ∧
    (c8Raw.description = "an exciting role" ∧
      ∃ errs, JobListing.build c8Raw 0 = .error errs ∧
        ∃ err ∈ errs, err.field = "description") := by
  constructor
  · intro raw now e h
    obtain ⟨jid, src, url, ttl, comp, jt, sen, sal, cur, desc, exp, salFinal,
      hId, hSrc, hUrl, hTtl, hComp, hJt, hSen, hSal, hCur, hDesc, hExp, hSalF, he⟩ :=
      build_ok_inv raw now e h
    obtain ⟨hdeq, hne, hhead⟩ := vDescription_ok_props _ _ hDesc
    subst he
    rcases hhead with hnil | ⟨c, rest, hcons, hup⟩
    · exfalso
      have hlist : stripC raw.description.data ≠ [] :=
        fun hc => hne ((pyStrip_eq_empty_iff _).mpr hc)
      apply collapseC_ne_nil (stripC raw.description.data) (stripC_idem _) hlist
      rw [hdeq] at hnil
      exact hnil
    · exact ⟨c, rest, hcons, hup⟩
  · exact ⟨rfl, buildErrors c8Raw, build_eq_error c8Raw 0 (by decide), by decide⟩

theorem C8_witness :
    ∃ c rest, plainEnt.description.data = c :: rest ∧ pyIsUpper c = true :=
  C8_description_upper.1 plainRaw 0 plainEnt rfl

/-- C10: when a salary sub-entity is supplied, the built entity stores
exactly the validated supplied value — the flat `salary_min`, `salary_max`
and `currency` inputs never modify it. -/
theorem C10_salary_frame (raw : RawJob) (now : Int) (e : JobListing) (rs : RawSalary)
    (hs : raw.salary = some rs) (h : JobListing.build raw now = .ok e) :
    ∃ s, SalaryInfo.validate rs = .ok s ∧ e.salary = some s ∧
      s = ⟨rs.min_amount, rs.max_amount, rs.currency, rs.period, rs.is_negotiable,
        rs.original_text⟩ := by
  obtain ⟨jid, src, url, ttl, comp, jt, sen, sal, cur, desc, exp, salFinal,
    hId, hSrc, hUrl, hTtl, hComp, hJt, hSen, hSal, hCur, hDesc, hExp, hSalF, he⟩ :=
    build_ok_inv raw now e h
  rw [hs] at hSal
  have h1 : (match SalaryInfo.validate rs with
      | .ok s2 => (Except.ok (some s2) : Except FieldError (Option SalaryInfo))
      | .error m => .error ⟨"salary", m⟩) = .ok sal := hSal
  cases hval : SalaryInfo.validate rs with
  | error m =>
    rw [hval] at h1
    exact Except.noConfusion h1
  | ok s2 =>
    rw [hval] at h1
    have h2 : (Except.ok (some s2) : Except FieldError (Option SalaryInfo)) = .ok sal := h1
    injection h2 with h2
    subst h2
    have h4 : (Except.ok (some s2) : Except String (Option SalaryInfo)) = .ok salFinal := hSalF
    injection h4 with h4
    subst h4
    subst he
    exact ⟨s2, rfl, rfl, salary_validate_ok_inv rs s2 hval⟩

theorem C10_witness :
    ∃ s, SalaryInfo.validate c10rs = .ok s ∧ c10Ent.salary = some s ∧
      s = ⟨c10rs.min_amount, c10rs.max_amount, c10rs.currency, c10rs.period,
        c10rs.is_negotiable, c10rs.original_text⟩ :=
  C10_salary_frame c10Raw 0 c10Ent c10rs rfl rfl

end JobScraper
